import Mathlib

/-!
Verification of the two data-preparation transforms of `hidi/factorization.py`:
`W2VStringTransform.transform` (grouped shuffle serializer over a pandas frame)
and `W2VBuildDatasetTransform.transform` (frequency-based vocabulary builder).

The Python code is embedded shallowly:

* Python `int` is `Int`, Python strings are `String`.
* `collections.Counter(words)` iterates its keys in first-occurrence order
  (dict insertion order); `most_common(n)` is `heapq.nlargest`, i.e. the
  stable descending sort by count truncated to `n` (empty for `n ≤ 0`).
  This is modelled by `firstOccs`/`counterItems` and `mostCommon` built on
  the stable `List.insertionSort`.
* Python `dict` is an association list with insertion-order semantics:
  re-assigning an existing key keeps its position (`dictInsert`).
* Exceptions are modelled by `Except PyErr`; the possible kinds raised by
  the underlying libraries are enumerated in `PyErr`.
* A pandas frame holding the two expected columns is `DataFrame`; values in
  cells are `PyVal` (ints or strings, `pyStr` is Python `str`).  The input
  frame is assumed to carry a default integer index, so the membership test
  `('link_id' in df.index) | ('item_id' in df.index)` at the top of
  `W2VStringTransform.transform` is `False` (a string is never an element of
  a `RangeIndex`) and the `reset_index` branch is skipped.
* `df.loc[v]` on a frame whose index holds `v` exactly once collapses the
  row to a scalar (`LocVal.scalar`), otherwise it yields the column values
  (`LocVal.listv`); `np.random.permutation` applied to a scalar `int n`
  permutes `range(n)`, applied to a scalar string it raises (unsized
  object), and applied to a sequence it returns some permutation of it.
  Randomness is modelled by an oracle `perm : Nat → List PyVal → List PyVal`
  indexed by a call counter; theorems that depend on randomness hypothesise
  that every oracle answer is a permutation of its argument.
-/

/-- Python values occurring in the frames fed to the serializer. -/
inductive PyVal where
  | vInt : Int → PyVal
  | vStr : String → PyVal
deriving DecidableEq

/-- Exception kinds the embedded code can raise.  The code base defines no
`InvalidArgument` error of its own; these are the library exceptions. -/
inductive PyErr where
  | keyError
  | typeError
  | valueError
  | attributeError
deriving DecidableEq

/-- Python `str` applied to a cell value. -/
def pyStr : PyVal → String
  | .vInt n => toString n
  | .vStr s => s

/-- Characters stripped by Python `str.strip()` / split on by `str.split()`
(ASCII whitespace). -/
def isPyWS (ch : Char) : Bool :=
  ch = ' ' || ch = '\t' || ch = '\n' || ch = '\x0d' || ch = '\x0b' || ch = '\x0c'

/-- Python `str.strip()`. -/
def pyStrip (s : String) : String :=
  String.mk (((s.toList.dropWhile isPyWS).reverse.dropWhile isPyWS).reverse)

/-- Accumulator pass of `pySplit`: `cur` holds the characters of the token
being read, in reverse. -/
def pySplitAux : List Char → List Char → List String
  | [], cur => if cur.isEmpty then [] else [String.mk cur.reverse]
  | ch :: rest, cur =>
    if isPyWS ch then
      (if cur.isEmpty then [] else [String.mk cur.reverse]) ++ pySplitAux rest []
    else
      pySplitAux rest (ch :: cur)

/-- Python `str.split()` with no argument: split on whitespace runs,
discarding empty pieces. -/
def pySplit (s : String) : List String :=
  pySplitAux s.toList []

/-- Accumulator pass of `firstOccs`: `seen` holds the elements already kept. -/
def firstOccsAux {α : Type} [DecidableEq α] : List α → List α → List α
  | [], _ => []
  | a :: as, seen =>
    if a ∈ seen then firstOccsAux as seen else a :: firstOccsAux as (a :: seen)

/-- The distinct elements of a list in first-occurrence order: the iteration
order of the keys of `collections.Counter(l)` (dict insertion order). -/
def firstOccs {α : Type} [DecidableEq α] (l : List α) : List α :=
  firstOccsAux l []

/-- The items of `collections.Counter(ws)` in iteration order: each distinct
token with its multiplicity, keyed in first-occurrence order. -/
def counterItems (ws : List String) : List (String × Nat) :=
  (firstOccs ws).map (fun w => (w, ws.count w))

/-- The ordering `heapq.nlargest` sorts by: descending count. -/
def countGe (a b : String × Nat) : Prop :=
  b.2 ≤ a.2

instance : DecidableRel countGe := fun a b => Nat.decLe b.2 a.2

instance : IsTotal (String × Nat) countGe :=
  ⟨fun a b => Nat.le_total b.2 a.2⟩

instance : IsTrans (String × Nat) countGe :=
  ⟨fun _ _ _ h h2 => Nat.le_trans h2 h⟩

/-- `Counter.most_common(n)`: the stable descending sort of the counter's
items (`heapq.nlargest(n, items, key)` is documented as equivalent to
`sorted(items, key=key, reverse=True)[:n]`, a stable sort; the stable sort
by a total preorder is unique, and `List.insertionSort` computes it),
truncated to `n`; for `n ≤ 0` Python returns `[]` (`Int.toNat` sends
non-positive numbers to `0`). -/
def mostCommon (n : Int) (items : List (String × Nat)) : List (String × Nat) :=
  (items.insertionSort countGe).take n.toNat

/-- One Python `dict` assignment `d[k] = v` on an insertion-ordered
association list: an existing key keeps its position, a new key is appended. -/
def dictInsert {α β : Type} [DecidableEq α] (d : List (α × β)) (k : α) (v : β) :
    List (α × β) :=
  if d.any (fun p => p.1 = k) then
    d.map (fun p => if p.1 = k then (k, v) else p)
  else
    d ++ [(k, v)]

/-- Python `k in d` on the association-list model of `dict`. -/
def dictMem {α β : Type} [DecidableEq α] (d : List (α × β)) (k : α) : Bool :=
  d.any (fun p => p.1 = k)

/-- Python `d[k]` on the association-list model of `dict` (`none` = KeyError). -/
def dictLookup {α β : Type} [DecidableEq α] (d : List (α × β)) (k : α) : Option β :=
  (d.find? (fun p => p.1 = k)).map (fun p => p.2)

/-- The tokenizer input: `words` may be a whitespace-joined string or a list. -/
inductive W2VInput where
  | ofStr : String → W2VInput
  | ofList : List String → W2VInput

/-- The `isinstance(words, str)` normalization at the top of
`W2VBuildDatasetTransform.transform`. -/
def normalizeInput : W2VInput → List String
  | .ofStr s => pySplit s
  | .ofList ws => ws

/-- The list `count` right after
`count = [['UNK', -1]]; count.extend(count_words.most_common(vocabulary_size-1))`:
the OOV placeholder followed by the ranked retained tokens. -/
def countInit (v : Int) (ws : List String) : List (String × Int) :=
  ("UNK", (-1 : Int)) :: (mostCommon (v - 1) (counterItems ws)).map
    (fun p => (p.1, (p.2 : Int)))

/-- The loop `for word, _ in count: dictionary[word] = len(dictionary)`. -/
def buildDict (v : Int) (ws : List String) : List (String × Nat) :=
  (countInit v ws).foldl (fun d p => dictInsert d p.1 d.length) []

/-- The encoding loop: `data` accumulates each word's index (0 when absent)
and `unk_count` counts the out-of-vocabulary emissions. -/
def encodeLoop (d : List (String × Nat)) (ws : List String) : List Nat × Nat :=
  ws.foldl
    (fun acc w =>
      match dictLookup d w with
      | some i => (acc.1 ++ [i], acc.2)
      | none => (acc.1 ++ [0], acc.2 + 1))
    ([], 0)

/-- The pair `(data, unk_count)` produced by the encoding loop of
`W2VBuildDatasetTransform.transform`. -/
def encodePair (v : Int) (ws : List String) : List Nat × Nat :=
  encodeLoop (buildDict v ws) ws

/-- The assignment `count[0][1] = unk_count` on the head of the list. -/
def setHeadCount (l : List (String × Int)) (c : Int) : List (String × Int) :=
  match l with
  | [] => []
  | p :: t => (p.1, c) :: t

/-- The final `count` value returned by the tokenizer (OOV count backfilled). -/
def freqTable (v : Int) (ws : List String) : List (String × Int) :=
  setHeadCount (countInit v ws) ((encodePair v ws).2 : Int)

/-- `reverse_dictionary = dict(zip(dictionary.values(), dictionary.keys()))`:
a fresh dict built by inserting each (value, key) pair in iteration order. -/
def revDict (v : Int) (ws : List String) : List (Nat × String) :=
  (buildDict v ws).foldl (fun r p => dictInsert r p.2 p.1) []

/-- The result quadruple `(data, count, dictionary, reverse_dictionary)`. -/
def w2vResult (v : Int) (ws : List String) :
    List Nat × List (String × Int) × List (String × Nat) × List (Nat × String) :=
  ((encodePair v ws).1, freqTable v ws, buildDict v ws, revDict v ws)

/-- `W2VBuildDatasetTransform.transform` with `vocabulary_size = v`.  No code
path of the Python body raises, so the embedding always returns `.ok`; the
side-channel `kwargs` is returned untouched as the second component. -/
def W2VBuildDatasetTransform.transform {κ : Type} (v : Int) (input : W2VInput)
    (kwargs : κ) :
    Except PyErr
      ((List Nat × List (String × Int) × List (String × Nat) × List (Nat × String)) × κ) :=
  .ok (w2vResult v (normalizeInput input), kwargs)

/-- A pandas frame as fed to `W2VStringTransform.transform`: whether the
`link_id` and `item_id` columns are present, and the row data.  When a
column flag is `false` the corresponding components of `rows` are unused. -/
structure DataFrame where
  hasLink : Bool
  hasItem : Bool
  rows : List (PyVal × PyVal)
deriving DecidableEq

/-- The frame after `df.set_index('link_id', inplace=True)`: the `link_id`
values have become the index, `item_id` remains the single column.  The
`inplace` call is a metadata change; the row data is untouched. -/
structure IndexedFrame where
  index : List PyVal
  items : List PyVal
deriving DecidableEq

/-- `df.loc[v].item_id` can be a scalar (exactly one row has index `v` —
pandas collapses the single row to a `Series`, whose `item_id` field is the
bare cell) or the column of matching values. -/
inductive LocVal where
  | scalar : PyVal → LocVal
  | listv : List PyVal → LocVal
deriving DecidableEq

/-- The `item_id` values of the rows whose `link_id` equals `v`, in row
order. -/
def locItems (rows : List (PyVal × PyVal)) (v : PyVal) : List PyVal :=
  (rows.filter (fun r => r.1 = v)).map (fun r => r.2)

/-- `df.loc[v].item_id` for a frame indexed by `link_id`: a single matching
row collapses to its scalar cell.  (`v` always comes from the index, so at
least one row matches; zero matches would be a pandas `KeyError`, a case the
loop over `df.index.unique()` never produces.) -/
def dfLoc (rows : List (PyVal × PyVal)) (v : PyVal) : LocVal :=
  match locItems rows v with
  | [x] => .scalar x
  | l => .listv l

/-- `np.random.permutation(x)` where `x` is the value bound to
`temp_item_id_list`: a sequence is (randomly, per the oracle `perm` at call
counter `c`) permuted; a scalar `int n` yields a permutation of
`np.arange(n)` (`ValueError` when `n < 0`); a scalar string is a 0-d array,
which `shuffle` rejects (`TypeError`: unsized object). -/
def npPermutation (perm : Nat → List PyVal → List PyVal) (c : Nat) :
    LocVal → Except PyErr (List PyVal)
  | .listv l => .ok (perm c l)
  | .scalar (.vInt n) =>
      if n < 0 then .error .valueError
      else .ok (perm c ((List.range n.toNat).map (fun i => .vInt i)))
  | .scalar (.vStr _) => .error .typeError

/-- `np.append(a, b)`: both arguments are flattened and concatenated; a
scalar first argument contributes itself as a single element. -/
def npAppend : LocVal → List PyVal → List PyVal
  | .scalar x, l => x :: l
  | .listv xs, l => xs ++ l

/-- The loop `for i in range(self.n_shuffles - 1): item_id_list =
np.append(item_id_list, permutation(temp_item_id_list))`, with `k` remaining
iterations, accumulator `cur` and permutation-call counter `c`. -/
def shuffleLoop (perm : Nat → List PyVal → List PyVal) (temp : LocVal) :
    Nat → LocVal → Nat → Except PyErr (LocVal × Nat)
  | 0, cur, c => .ok (cur, c)
  | k + 1, cur, c =>
    match npPermutation perm c temp with
    | .error e => .error e
    | .ok p => shuffleLoop perm temp k (.listv (npAppend cur p)) (c + 1)

/-- Python `' '.join(pieces)`. -/
def spaceJoin : List String → String
  | [] => ""
  | [x] => x
  | x :: y :: xs => x ++ " " ++ spaceJoin (y :: xs)

/-- `' '.join(str(x) for x in item_id_list)`: joining over a list stringifies
each element; a scalar string iterates over its characters; a scalar int is
not iterable (`TypeError`). -/
def joinItems : LocVal → Except PyErr String
  | .scalar (.vInt _) => .error .typeError
  | .scalar (.vStr s) =>
      .ok (spaceJoin (s.toList.map (fun ch => String.mk [ch])))
  | .listv l => .ok (spaceJoin (l.map pyStr))

/-- One step of the accumulation `words = ' '.join([words, joined]).strip()`. -/
def stripJoin (words joined : String) : String :=
  pyStrip (words ++ " " ++ joined)

/-- The loop `for index in df.index.unique():` of
`W2VStringTransform.transform`, over the remaining unique index values, with
accumulated `words` and permutation-call counter `c`.  The `item_id`
attribute access inside the loop body raises `AttributeError` when the
column is absent. -/
def w2vGo (perm : Nat → List PyVal → List PyVal) (k : Nat) (df : DataFrame) :
    List PyVal → String → Nat → Except PyErr String
  | [], words, _ => .ok words
  | v :: vs, words, c =>
    if df.hasItem then
      match shuffleLoop perm (dfLoc df.rows v) k (dfLoc df.rows v) c with
      | .error e => .error e
      | .ok (cur, c2) =>
        match joinItems cur with
        | .error e => .error e
        | .ok joined => w2vGo perm k df vs (stripJoin words joined) c2
    else .error .attributeError

/-- `W2VStringTransform.transform` with `n_shuffles = n` and random source
`perm`.  The input frame carries a default integer index, so the
`reset_index` branch is skipped (see the header comment);
`df.set_index('link_id', inplace=True)` raises `KeyError` when the column is
absent, and otherwise re-indexes the frame in place — the mutated frame is
returned alongside the output string and the untouched `kwargs`. -/
def W2VStringTransform.transform {κ : Type} (n : Int)
    (perm : Nat → List PyVal → List PyVal) (df : DataFrame) (kwargs : κ) :
    Except PyErr (String × IndexedFrame × κ) :=
  if df.hasLink then
    match w2vGo perm (n - 1).toNat df
        (firstOccs (df.rows.map (fun r => r.1))) "" 0 with
    | .error e => .error e
    | .ok words =>
        .ok (words, ⟨df.rows.map (fun r => r.1), df.rows.map (fun r => r.2)⟩, kwargs)
  else .error .keyError

/-- The identity permutation oracle: a legitimate outcome of the random
source (used to instantiate randomness-dependent statements). -/
def idPerm : Nat → List PyVal → List PyVal := fun _ l => l

/-- The extra shuffled copies produced for one group: the oracle's answers at
counters `c`, `c + 1`, …. -/
def permCopies (perm : Nat → List PyVal → List PyVal) (c : Nat)
    (tl : List PyVal) : Nat → List (List PyVal)
  | 0 => []
  | k + 1 => perm c tl :: permCopies perm (c + 1) tl k

/-- Fold a list of per-group block strings the way the transform accumulates
`words`. -/
def stripFoldl (w0 : String) (bs : List String) : String :=
  bs.foldl stripJoin w0

/-- Space-join the stringifications of one copy of a group's member list. -/
def copyString (cp : List PyVal) : String :=
  spaceJoin (cp.map pyStr)

/-- What the specification requires of one per-group block: `m`
space-separated copies, the first canonical, each a permutation of the
group's canonical member list. -/
def blockSpec (rows : List (PyVal × PyVal)) (m : Nat) (v : PyVal) (b : String) : Prop :=
  ∃ copies : List (List PyVal),
    b = spaceJoin (copies.map copyString) ∧
    copies.length = m ∧
    copies.head? = some (locItems rows v) ∧
    ∀ cp ∈ copies, cp.Perm (locItems rows v)

/-- A two-row, one-group frame: group "A" with members "x" and "y". -/
def dfA : DataFrame :=
  ⟨true, true, [(.vStr "A", .vStr "x"), (.vStr "A", .vStr "y")]⟩

/-- A one-row frame: group "A" with the single integer member 5. -/
def df1 : DataFrame :=
  ⟨true, true, [(.vStr "A", .vInt 5)]⟩

/-- The token components of `count` (`'UNK'` followed by the retained
tokens), the keys the dictionary-building loop inserts. -/
def tokensOf (v : Int) (ws : List String) : List String :=
  (countInit v ws).map (fun p => p.1)

/-- A list tagged with consecutive indices starting at `b`: the shape a run
of fresh Python `dict` assignments `d[k] = len(d)` produces. -/
def withIdx {α : Type} (b : Nat) : List α → List (α × Nat)
  | [] => []
  | a :: as => (a, b) :: withIdx (b + 1) as

theorem mem_firstOccsAux {α : Type} [DecidableEq α] :
    ∀ (l seen : List α) (a : α),
      a ∈ firstOccsAux l seen ↔ a ∈ l ∧ ¬ a ∈ seen := by
  intro l
  induction l with
  | nil => intro seen a; simp [firstOccsAux]
  | cons b l ih =>
    intro seen a
    by_cases hb : b ∈ seen
    · simp only [firstOccsAux, if_pos hb, ih, List.mem_cons]
      constructor
      · exact fun h => ⟨Or.inr h.1, h.2⟩
      · rintro ⟨h | h, hs⟩
        · exact absurd (h ▸ hb) hs
        · exact ⟨h, hs⟩
    · simp only [firstOccsAux, if_neg hb, List.mem_cons, ih]
      by_cases hab : a = b
      · subst hab; simp [hb]
      · simp [hab]
  
theorem nodup_firstOccsAux {α : Type} [DecidableEq α] :
    ∀ (l seen : List α), (firstOccsAux l seen).Nodup := by
  intro l
  induction l with
  | nil => intro seen; simp [firstOccsAux]
  | cons b l ih =>
    intro seen
    by_cases hb : b ∈ seen
    · simpa [firstOccsAux, if_pos hb] using ih seen
    · simp only [firstOccsAux, if_neg hb]
      refine List.Pairwise.cons ?_ (ih (b :: seen))
      intro a ha hba
      rw [mem_firstOccsAux] at ha
      subst hba
      exact ha.2 (List.mem_cons_self b seen)

theorem mem_firstOccs {α : Type} [DecidableEq α] (l : List α) (a : α) :
    a ∈ firstOccs l ↔ a ∈ l := by
  simp [firstOccs, mem_firstOccsAux]

theorem nodup_firstOccs {α : Type} [DecidableEq α] (l : List α) :
    (firstOccs l).Nodup :=
  nodup_firstOccsAux l []

theorem dictInsert_fresh {α β : Type} [DecidableEq α] (d : List (α × β)) (k : α)
    (v : β) (h : ∀ q ∈ d, ¬ q.1 = k) : dictInsert d k v = d ++ [(k, v)] := by
  have : d.any (fun p => p.1 = k) = false := by
    simp only [List.any_eq_false, decide_eq_true_eq]
    exact h
  simp [dictInsert, this]

theorem foldl_dictInsert_fresh {α β : Type} [DecidableEq α] :
    ∀ (ps d0 : List (α × β)),
      (ps.map (fun p => p.1)).Nodup →
      (∀ p ∈ ps, ∀ q ∈ d0, ¬ q.1 = p.1) →
      ps.foldl (fun d p => dictInsert d p.1 p.2) d0 = d0 ++ ps := by
  intro ps
  induction ps with
  | nil => intro d0 _ _; simp
  | cons p ps ih =>
    intro d0 hnd hfresh
    have h1 : dictInsert d0 p.1 p.2 = d0 ++ [(p.1, p.2)] :=
      dictInsert_fresh d0 p.1 p.2 (fun q hq => hfresh p (by simp) q hq)
    rw [List.map_cons, List.nodup_cons] at hnd
    have h2 : ps.foldl (fun d q => dictInsert d q.1 q.2) (d0 ++ [(p.1, p.2)])
        = (d0 ++ [(p.1, p.2)]) ++ ps := by
      refine ih (d0 ++ [(p.1, p.2)]) hnd.2 ?_
      intro q hq r hr
      rcases List.mem_append.mp hr with hr | hr
      · exact hfresh q (by simp [hq]) r hr
      · have hrp : r = (p.1, p.2) := by simpa using hr
        subst hrp
        intro hqp
        have hqp2 : p.1 = q.1 := hqp
        apply hnd.1
        rw [hqp2]
        exact List.mem_map_of_mem (fun s => s.1) hq
    simp only [List.foldl_cons, h1, h2]
    simp

theorem foldl_dictInsert_len {α : Type} [DecidableEq α] :
    ∀ (ks : List α) (d0 : List (α × Nat)),
      ks.Nodup →
      (∀ k ∈ ks, ∀ q ∈ d0, ¬ q.1 = k) →
      ks.foldl (fun d k => dictInsert d k d.length) d0 = d0 ++ withIdx d0.length ks := by
  intro ks
  induction ks with
  | nil => intro d0 _ _; simp [withIdx]
  | cons k ks ih =>
    intro d0 hnd hfresh
    have h1 : dictInsert d0 k d0.length = d0 ++ [(k, d0.length)] :=
      dictInsert_fresh d0 k d0.length (fun q hq => hfresh k (by simp) q hq)
    have hnd2 := List.nodup_cons.mp hnd
    have h2 : ks.foldl (fun d k2 => dictInsert d k2 d.length) (d0 ++ [(k, d0.length)])
        = (d0 ++ [(k, d0.length)]) ++ withIdx (d0 ++ [(k, d0.length)]).length ks := by
      refine ih (d0 ++ [(k, d0.length)]) hnd2.2 ?_
      intro k2 hk2 r hr
      rcases List.mem_append.mp hr with hr | hr
      · exact hfresh k2 (by simp [hk2]) r hr
      · have hrk0 : r = (k, d0.length) := by simpa using hr
        subst hrk0
        intro hrk
        have hkk : k = k2 := hrk
        exact hnd2.1 (hkk ▸ hk2)
    simp only [List.foldl_cons, h1, h2]
    simp [withIdx, Nat.add_comm]

theorem withIdx_map_fst {α : Type} : ∀ (b : Nat) (ks : List α),
    (withIdx b ks).map (fun p => p.1) = ks := by
  intro b ks
  induction ks generalizing b with
  | nil => simp [withIdx]
  | cons k ks ih => simp [withIdx, ih]

theorem withIdx_map_snd {α : Type} : ∀ (b : Nat) (ks : List α),
    (withIdx b ks).map (fun p => p.2) = List.range' b ks.length := by
  intro b ks
  induction ks generalizing b with
  | nil => simp [withIdx]
  | cons k ks ih => simp [withIdx, ih, List.range'_succ]

theorem withIdx_length {α : Type} : ∀ (b : Nat) (ks : List α),
    (withIdx b ks).length = ks.length := by
  intro b ks
  induction ks generalizing b with
  | nil => simp [withIdx]
  | cons k ks ih => simp [withIdx, ih]

theorem dictLookup_eq_none {α β : Type} [DecidableEq α] (d : List (α × β)) (k : α) :
    dictLookup d k = none ↔ ¬ k ∈ d.map (fun p => p.1) := by
  simp only [dictLookup, Option.map_eq_none', List.find?_eq_none, List.mem_map,
    decide_eq_true_eq]
  constructor
  · rintro h ⟨p, hp, hpk⟩
    exact h p hp hpk
  · intro h p hp hpk
    exact h ⟨p, hp, hpk⟩

theorem encodeLoop_eq (d : List (String × Nat)) (ws : List String) :
    encodeLoop d ws =
      (ws.map (fun w => (dictLookup d w).getD 0),
       (ws.filter (fun w => (dictLookup d w).isNone)).length) := by
  suffices h : ∀ (ws : List String) (acc : List Nat × Nat),
      ws.foldl
        (fun acc w =>
          match dictLookup d w with
          | some i => (acc.1 ++ [i], acc.2)
          | none => (acc.1 ++ [0], acc.2 + 1))
        acc =
      (acc.1 ++ ws.map (fun w => (dictLookup d w).getD 0),
       acc.2 + (ws.filter (fun w => (dictLookup d w).isNone)).length) by
    simpa using h ws ([], 0)
  intro ws
  induction ws with
  | nil => intro acc; simp
  | cons w ws ih =>
    intro acc
    rcases hw : dictLookup d w with _ | i
    · simp [hw, ih, Nat.add_comm, Nat.add_assoc, Nat.add_left_comm]
    · simp [hw, ih]

theorem counterItems_map_fst (ws : List String) :
    (counterItems ws).map (fun p => p.1) = firstOccs ws := by
  simp [counterItems, List.map_map, Function.comp_def]

theorem counterItems_mem (ws : List String) (p : String × Nat)
    (hp : p ∈ counterItems ws) : p.1 ∈ ws ∧ p.2 = ws.count p.1 := by
  simp only [counterItems, List.mem_map] at hp
  obtain ⟨w, hw, hwp⟩ := hp
  subst hwp
  exact ⟨(mem_firstOccs ws w).mp hw, rfl⟩

theorem mostCommon_mem (n : Int) (items : List (String × Nat)) (p : String × Nat)
    (hp : p ∈ mostCommon n items) : p ∈ items :=
  (List.perm_insertionSort countGe items).mem_iff.mp
    (List.take_subset n.toNat _ hp)

theorem mostCommon_map_fst_nodup (n : Int) (ws : List String) :
    ((mostCommon n (counterItems ws)).map (fun p => p.1)).Nodup := by
  have hperm : List.Perm (((counterItems ws).insertionSort countGe).map (fun p => p.1))
      ((counterItems ws).map (fun p => p.1)) :=
    (List.perm_insertionSort countGe (counterItems ws)).map (fun p => p.1)
  have hnd : (((counterItems ws).insertionSort countGe).map (fun p => p.1)).Nodup := by
    rw [hperm.nodup_iff, counterItems_map_fst]
    exact nodup_firstOccs ws
  have hsub : ((mostCommon n (counterItems ws)).map (fun p => p.1)).Sublist
      (((counterItems ws).insertionSort countGe).map (fun p => p.1)) := by
    rw [mostCommon]
    exact List.Sublist.map (fun p => p.1)
      (List.take_sublist n.toNat ((counterItems ws).insertionSort countGe))
  exact hnd.sublist hsub

theorem tokensOf_eq (v : Int) (ws : List String) :
    tokensOf v ws = "UNK" :: (mostCommon (v - 1) (counterItems ws)).map (fun p => p.1) := by
  simp [tokensOf, countInit, List.map_map, Function.comp_def]

theorem unk_not_mem_mostCommon (v : Int) (ws : List String) (h : ¬ "UNK" ∈ ws) :
    ¬ "UNK" ∈ (mostCommon (v - 1) (counterItems ws)).map (fun p => p.1) := by
  intro hmem
  simp only [List.mem_map] at hmem
  obtain ⟨p, hp, hpu⟩ := hmem
  have := (counterItems_mem ws p (mostCommon_mem _ _ p hp)).1
  rw [hpu] at this
  exact h this

theorem tokensOf_nodup (v : Int) (ws : List String) (h : ¬ "UNK" ∈ ws) :
    (tokensOf v ws).Nodup := by
  rw [tokensOf_eq, List.nodup_cons]
  exact ⟨unk_not_mem_mostCommon v ws h, mostCommon_map_fst_nodup (v - 1) ws⟩

theorem buildDict_eq (v : Int) (ws : List String) (h : ¬ "UNK" ∈ ws) :
    buildDict v ws = withIdx 0 (tokensOf v ws) := by
  have h1 : buildDict v ws
      = (tokensOf v ws).foldl (fun d k => dictInsert d k d.length) [] := by
    rw [tokensOf, List.foldl_map]
    rfl
  rw [h1, foldl_dictInsert_len (tokensOf v ws) [] (tokensOf_nodup v ws h)
    (by intro k _ q hq; simp at hq)]
  simp

theorem buildDict_map_fst (v : Int) (ws : List String) (h : ¬ "UNK" ∈ ws) :
    (buildDict v ws).map (fun p => p.1) = tokensOf v ws := by
  rw [buildDict_eq v ws h, withIdx_map_fst]

theorem buildDict_snd_nodup (v : Int) (ws : List String) (h : ¬ "UNK" ∈ ws) :
    ((buildDict v ws).map (fun p => p.2)).Nodup := by
  rw [buildDict_eq v ws h, withIdx_map_snd]
  exact List.nodup_range' 0 _

theorem dictLookup_buildDict_unk (v : Int) (ws : List String) (h : ¬ "UNK" ∈ ws) :
    dictLookup (buildDict v ws) "UNK" = some 0 := by
  rw [buildDict_eq v ws h, tokensOf_eq]
  simp [withIdx, dictLookup, List.find?]

theorem revDict_eq (v : Int) (ws : List String) (h : ¬ "UNK" ∈ ws) :
    revDict v ws = (buildDict v ws).map (fun p => (p.2, p.1)) := by
  have h1 : revDict v ws
      = ((buildDict v ws).map (fun p => (p.2, p.1))).foldl
          (fun d q => dictInsert d q.1 q.2) [] := by
    rw [List.foldl_map]
    rfl
  rw [h1, foldl_dictInsert_fresh _ []
    (by simpa [List.map_map, Function.comp_def] using buildDict_snd_nodup v ws h)
    (by intro p _ q hq; simp at hq)]
  simp

theorem dictLookup_map_swap {α β : Type} [DecidableEq α] [DecidableEq β] :
    ∀ (d : List (α × β)), ((d.map (fun p => p.2)).Nodup) → ∀ p ∈ d,
      dictLookup (d.map (fun q => (q.2, q.1))) p.2 = some p.1 := by
  intro d
  induction d with
  | nil => intro _ p hp; simp at hp
  | cons q d ih =>
    intro hnd p hp
    rw [List.map_cons, List.nodup_cons] at hnd
    rcases List.mem_cons.mp hp with hpq | hpd
    · subst hpq
      simp [dictLookup, List.find?]
    · have hne : ¬ q.2 = p.2 := by
        intro he
        exact hnd.1 (he ▸ List.mem_map_of_mem (fun r => r.2) hpd)
      have : (decide (q.2 = p.2)) = false := by simpa using hne
      simp only [List.map_cons, dictLookup, List.find?, this]
      exact ih hnd.2 p hpd

theorem length_filter_mem_cons {α : Type} [DecidableEq α] (t : α) (ts : List α)
    (ws : List α) (ht : ¬ t ∈ ts) :
    (ws.filter (fun w => w ∈ t :: ts)).length
      = ws.count t + (ws.filter (fun w => w ∈ ts)).length := by
  induction ws with
  | nil => simp
  | cons w ws ih =>
    rw [List.filter_cons, List.filter_cons, List.count_cons]
    by_cases hwt : w = t
    · rw [if_pos (by simp [hwt]), if_pos (by simp [hwt]),
        if_neg (by simpa [hwt] using ht)]
      simp only [List.length_cons, ih]
      omega
    · by_cases hws : w ∈ ts
      · rw [if_pos (by simp [hws]), if_neg (by simp [hwt]),
          if_pos (by simpa using hws)]
        simp only [List.length_cons, ih]
        omega
      · rw [if_neg (by simp [hwt, hws]), if_neg (by simp [hwt]),
          if_neg (by simpa using hws)]
        simp only [ih]
        omega

theorem sum_counts_eq_filter_length {α : Type} [DecidableEq α] :
    ∀ (ts : List α), ts.Nodup → ∀ (ws : List α),
      (ts.map (fun t => ws.count t)).sum = (ws.filter (fun w => w ∈ ts)).length := by
  intro ts
  induction ts with
  | nil => intro _ ws; simp
  | cons t ts ih =>
    intro hnd ws
    rw [List.nodup_cons] at hnd
    simp only [List.map_cons, List.sum_cons]
    rw [length_filter_mem_cons t ts ws hnd.1, ih hnd.2 ws]

theorem encodeUnk_eq (v : Int) (ws : List String) (h : ¬ "UNK" ∈ ws) :
    (encodePair v ws).2 =
      (ws.filter (fun w =>
        ¬ w ∈ (mostCommon (v - 1) (counterItems ws)).map (fun p => p.1))).length := by
  rw [encodePair, encodeLoop_eq]
  dsimp only
  congr 1
  apply List.filter_congr
  intro w hw
  have hne : ¬ w = "UNK" := fun he => h (he ▸ hw)
  have hiff : (dictLookup (buildDict v ws) w = none)
      ↔ ¬ w ∈ (mostCommon (v - 1) (counterItems ws)).map (fun p => p.1) := by
    rw [dictLookup_eq_none, buildDict_map_fst v ws h, tokensOf_eq]
    simp [hne]
  cases hdl : dictLookup (buildDict v ws) w with
  | none => simp [hiff.mp hdl]
  | some i =>
    have hmem : w ∈ (mostCommon (v - 1) (counterItems ws)).map (fun p => p.1) := by
      by_contra hc
      have := hiff.mpr hc
      rw [hdl] at this
      cases this
    simp [hmem]

theorem mostCommon_counts_sum (v : Int) (ws : List String) :
    ((mostCommon (v - 1) (counterItems ws)).map (fun p => p.2)).sum
      = (ws.filter (fun w =>
          w ∈ (mostCommon (v - 1) (counterItems ws)).map (fun p => p.1))).length := by
  have h1 : (mostCommon (v - 1) (counterItems ws)).map (fun p => p.2)
      = (mostCommon (v - 1) (counterItems ws)).map (fun p => ws.count p.1) := by
    apply List.map_congr_left
    intro p hp
    exact (counterItems_mem ws p (mostCommon_mem _ _ p hp)).2
  rw [h1, show (mostCommon (v - 1) (counterItems ws)).map (fun p => ws.count p.1)
      = ((mostCommon (v - 1) (counterItems ws)).map (fun p => p.1)).map
          (fun t => ws.count t) by simp [List.map_map, Function.comp_def]]
  exact sum_counts_eq_filter_length _ (mostCommon_map_fst_nodup (v - 1) ws) ws

theorem freqTable_sum (v : Int) (ws : List String) (h : ¬ "UNK" ∈ ws) :
    ((freqTable v ws).map (fun p => p.2)).sum = (ws.length : Int) := by
  have hsplit : ws.length =
      (ws.filter (fun w =>
        ¬ w ∈ (mostCommon (v - 1) (counterItems ws)).map (fun p => p.1))).length
      + (ws.filter (fun w =>
        w ∈ (mostCommon (v - 1) (counterItems ws)).map (fun p => p.1))).length := by
    rw [← List.countP_eq_length_filter, ← List.countP_eq_length_filter]
    have := List.length_eq_countP_add_countP
      (fun w => decide (w ∈ (mostCommon (v - 1) (counterItems ws)).map (fun p => p.1))) ws
    rw [this]
    simp [Nat.add_comm]
  simp only [freqTable, countInit, setHeadCount, List.map_cons, List.sum_cons,
    List.map_map, Function.comp_def]
  rw [encodeUnk_eq v ws h]
  have htail : (List.map (fun p => ((p.2 : Nat) : Int))
        (mostCommon (v - 1) (counterItems ws))).sum
      = ((((mostCommon (v - 1) (counterItems ws)).map
            (fun p => p.2)).sum : Nat) : Int) := by
    rw [Nat.cast_list_sum, List.map_map]
    rfl
  rw [htail, mostCommon_counts_sum v ws, hsplit]
  push_cast
  ring

theorem insertionSort_countGe_filter (ws : List String) (c : Nat) :
    ((counterItems ws).insertionSort countGe).filter (fun p => p.2 = c)
      = (counterItems ws).filter (fun p => p.2 = c) := by
  have hpair : ((counterItems ws).filter (fun p => p.2 = c)).Pairwise countGe := by
    apply List.pairwise_of_forall_mem_list
    intro a ha b hb
    have ha2 := (List.mem_filter.mp ha).2
    have hb2 := (List.mem_filter.mp hb).2
    simp only [decide_eq_true_eq] at ha2 hb2
    show b.2 ≤ a.2
    rw [ha2, hb2]
  have hsub : ((counterItems ws).filter (fun p => p.2 = c)).Sublist
      ((counterItems ws).insertionSort countGe) :=
    List.sublist_insertionSort hpair (List.filter_sublist _)
  have hself : ((counterItems ws).filter (fun p => p.2 = c)).filter
      (fun p => p.2 = c) = (counterItems ws).filter (fun p => p.2 = c) := by
    apply List.filter_eq_self.mpr
    intro a ha
    exact (List.mem_filter.mp ha).2
  have hsub2 : ((counterItems ws).filter (fun p => p.2 = c)).Sublist
      (((counterItems ws).insertionSort countGe).filter (fun p => p.2 = c)) := by
    have h2 := List.Sublist.filter (fun p => decide (p.2 = c)) hsub
    rwa [hself] at h2
  have hlen : (((counterItems ws).insertionSort countGe).filter
        (fun p => p.2 = c)).length
      = ((counterItems ws).filter (fun p => p.2 = c)).length :=
    ((List.perm_insertionSort countGe (counterItems ws)).filter _).length_eq
  exact (hsub2.eq_of_length hlen.symm).symm

theorem freqTable_tail_eq (v : Int) (ws : List String) :
    (freqTable v ws).tail
      = (((counterItems ws).insertionSort countGe).take (v - 1).toNat).map
          (fun p => (p.1, (p.2 : Int))) := by
  simp [freqTable, setHeadCount, countInit, mostCommon]

theorem freqTable_tail_sorted (v : Int) (ws : List String) :
    (freqTable v ws).tail.Pairwise (fun a b => b.2 ≤ a.2) := by
  rw [freqTable_tail_eq]
  have hs : ((counterItems ws).insertionSort countGe).Pairwise countGe :=
    List.sorted_insertionSort countGe (counterItems ws)
  have ht : (((counterItems ws).insertionSort countGe).take (v - 1).toNat).Pairwise
      countGe :=
    hs.sublist (List.take_sublist _ _)
  refine List.Pairwise.map (fun p => (p.1, (p.2 : Int))) ?_ ht
  intro a b hab
  show ((b.2 : Nat) : Int) ≤ ((a.2 : Nat) : Int)
  exact_mod_cast hab

theorem w2vResult_nonpos (v : Int) (ws : List String) (hv : v ≤ 0) :
    w2vResult v ws = (List.replicate ws.length 0,
      [("UNK", ((ws.filter (fun w => ¬ w = "UNK")).length : Int))],
      [("UNK", 0)], [(0, "UNK")]) := by
  have hmc : mostCommon (v - 1) (counterItems ws) = [] := by
    rw [mostCommon, Int.toNat_eq_zero.mpr (by omega), List.take_zero]
  have hci : countInit v ws = [("UNK", (-1 : Int))] := by
    rw [countInit, hmc]; rfl
  have hbd : buildDict v ws = [("UNK", 0)] := by
    rw [buildDict, hci]; rfl
  have hmap : ws.map (fun w => (dictLookup [(("UNK" : String), (0 : Nat))] w).getD 0)
      = List.replicate ws.length 0 := by
    rw [← List.map_const' ws 0]
    apply List.map_congr_left
    intro w _
    by_cases hw : ("UNK" : String) = w <;> simp [dictLookup, List.find?, hw]
  have hflt : ws.filter (fun w => (dictLookup [(("UNK" : String), (0 : Nat))] w).isNone)
      = ws.filter (fun w => ¬ w = "UNK") := by
    apply List.filter_congr
    intro w _
    by_cases hw : w = "UNK"
    · simp [dictLookup, List.find?, hw]
    · have hw2 : (decide (("UNK" : String) = w)) = false := by
        simp only [decide_eq_false_iff_not]
        exact fun he => hw he.symm
      simp [dictLookup, List.find?, hw2, hw]
  have henc : encodePair v ws = (List.replicate ws.length 0,
      (ws.filter (fun w => ¬ w = "UNK")).length) := by
    rw [encodePair, hbd, encodeLoop_eq, hmap, hflt]
  have hrev : revDict v ws = [(0, "UNK")] := by
    rw [revDict, hbd]; rfl
  have hft : freqTable v ws
      = [("UNK", ((ws.filter (fun w => ¬ w = "UNK")).length : Int))] := by
    rw [freqTable, hci, henc]; rfl
  rw [w2vResult, henc, hft, hbd, hrev]

theorem spaceJoin_append (l1 l2 : List String) (h1 : ¬ l1 = []) (h2 : ¬ l2 = []) :
    spaceJoin (l1 ++ l2) = spaceJoin l1 ++ " " ++ spaceJoin l2 := by
  induction l1 with
  | nil => exact absurd rfl h1
  | cons x l1 ih =>
    cases l1 with
    | nil =>
      cases l2 with
      | nil => exact absurd rfl h2
      | cons y l2 => rfl
    | cons x2 l1 =>
      have := ih (by simp)
      simp only [List.cons_append] at this ⊢
      rw [show spaceJoin (x :: x2 :: (l1 ++ l2)) = x ++ " " ++ spaceJoin (x2 :: (l1 ++ l2))
          from rfl, this,
        show spaceJoin (x :: x2 :: l1) = x ++ " " ++ spaceJoin (x2 :: l1) from rfl]
      simp [String.append_assoc]

theorem spaceJoin_flatten (css : List (List String)) (h : ∀ cs ∈ css, ¬ cs = []) :
    spaceJoin css.flatten = spaceJoin (css.map spaceJoin) := by
  induction css with
  | nil => rfl
  | cons cs css ih =>
    cases css with
    | nil => simp [spaceJoin]
    | cons cs2 css2 =>
      have hne : ¬ (cs2 :: css2).flatten = [] := by
        have : ¬ cs2 = [] := h cs2 (by simp)
        cases cs2 with
        | nil => exact absurd rfl this
        | cons a t => simp
      rw [List.flatten_cons, spaceJoin_append cs (cs2 :: css2).flatten
          (h cs (by simp)) hne,
        ih (fun c hc => h c (List.mem_cons_of_mem cs hc))]
      simp only [List.map_cons]
      rfl

theorem permCopies_length (perm : Nat → List PyVal → List PyVal) (tl : List PyVal) :
    ∀ (k c : Nat), (permCopies perm c tl k).length = k := by
  intro k
  induction k with
  | zero => intro c; rfl
  | succ k ih => intro c; simp [permCopies, ih]

theorem permCopies_mem (perm : Nat → List PyVal → List PyVal)
    (hperm : ∀ c l, (perm c l).Perm l) (tl : List PyVal) :
    ∀ (k c : Nat) (cp : List PyVal), cp ∈ permCopies perm c tl k → cp.Perm tl := by
  intro k
  induction k with
  | zero => intro c cp hcp; cases hcp
  | succ k ih =>
    intro c cp hcp
    rcases List.mem_cons.mp hcp with hcp | hcp
    · exact hcp ▸ hperm c tl
    · exact ih (c + 1) cp hcp

theorem shuffleLoop_listv (perm : Nat → List PyVal → List PyVal) (tl : List PyVal) :
    ∀ (k : Nat) (cur : List PyVal) (c : Nat),
      shuffleLoop perm (.listv tl) k (.listv cur) c =
        .ok (.listv (cur ++ (permCopies perm c tl k).flatten), c + k) := by
  intro k
  induction k with
  | zero => intro cur c; simp [shuffleLoop, permCopies]
  | succ k ih =>
    intro cur c
    rw [shuffleLoop]
    simp only [npPermutation, npAppend]
    rw [ih (cur ++ perm c tl) (c + 1)]
    simp [permCopies, Nat.add_comm, Nat.add_assoc, Nat.add_left_comm]

theorem dfLoc_eq_listv (rows : List (PyVal × PyVal)) (v : PyVal)
    (h : 2 ≤ (locItems rows v).length) :
    dfLoc rows v = .listv (locItems rows v) := by
  rw [dfLoc]
  cases hl : locItems rows v with
  | nil => rfl
  | cons x t =>
    cases t with
    | nil => rw [hl] at h; simp at h
    | cons y t2 => rfl

theorem perm_copy_ne_nil (tl cp : List PyVal) (h : 2 ≤ tl.length)
    (hcp : cp.Perm tl) : ¬ cp.map pyStr = [] := by
  intro he
  rw [List.map_eq_nil_iff] at he
  subst he
  have hlen := hcp.length_eq
  simp only [List.length_nil] at hlen
  omega

theorem w2vGo_blocks (perm : Nat → List PyVal → List PyVal)
    (hperm : ∀ c l, (perm c l).Perm l) (k : Nat) (df : DataFrame)
    (hitem : df.hasItem = true) :
    ∀ (vs : List PyVal), (∀ v ∈ vs, 2 ≤ (locItems df.rows v).length) →
      ∀ (words : String) (c : Nat),
        ∃ blocks : List String,
          w2vGo perm k df vs words c = .ok (stripFoldl words blocks) ∧
          List.Forall₂ (blockSpec df.rows (k + 1)) vs blocks := by
  intro vs
  induction vs with
  | nil => intro _ words c; exact ⟨[], rfl, List.Forall₂.nil⟩
  | cons v vs ih =>
    intro hvs words c
    have hv : 2 ≤ (locItems df.rows v).length := hvs v (List.mem_cons_self v vs)
    have htl := dfLoc_eq_listv df.rows v hv
    have htlne : ¬ (locItems df.rows v) = [] := by
      intro he; rw [he] at hv; simp at hv
    obtain ⟨blocks, hgo, hf⟩ := ih (fun u hu => hvs u (List.mem_cons_of_mem v hu))
      (stripJoin words (spaceJoin (((locItems df.rows v)
        ++ (permCopies perm c (locItems df.rows v) k).flatten).map pyStr)))
      (c + k)
    refine ⟨spaceJoin (((locItems df.rows v)
        ++ (permCopies perm c (locItems df.rows v) k).flatten).map pyStr) :: blocks,
      ?_, ?_⟩
    · rw [w2vGo, hitem, if_pos rfl, htl, shuffleLoop_listv]
      simp only [joinItems]
      exact hgo
    · refine List.Forall₂.cons ?_ hf
      refine ⟨(locItems df.rows v) :: permCopies perm c (locItems df.rows v) k,
        ?_, ?_, rfl, ?_⟩
      · have hflat : (((locItems df.rows v)
            ++ (permCopies perm c (locItems df.rows v) k).flatten).map pyStr)
            = (((locItems df.rows v).map pyStr)
                :: (permCopies perm c (locItems df.rows v) k).map
                    (fun cp => cp.map pyStr)).flatten := by
          rw [List.flatten_cons, List.map_append, List.map_flatten]
        rw [hflat, spaceJoin_flatten]
        · simp only [List.map_cons, List.map_map]
          rfl
        · intro cs hcs
          rcases List.mem_cons.mp hcs with hcs | hcs
          · subst hcs
            exact perm_copy_ne_nil _ _ hv (List.Perm.refl _)
          · simp only [List.mem_map] at hcs
            obtain ⟨cp, hcp, hcpe⟩ := hcs
            subst hcpe
            exact perm_copy_ne_nil _ _ hv
              (permCopies_mem perm hperm _ k c cp hcp)
      · simp [permCopies_length]
      · intro cp hcp
        rcases List.mem_cons.mp hcp with hcp | hcp
        · exact hcp ▸ List.Perm.refl _
        · exact permCopies_mem perm hperm _ k c cp hcp

/-- C1: the tokenizer ranks tokens by descending count with ties broken
stably by first-occurrence order and retains the top `vocabulary_size - 1`
(the retained table's tail is the truncated stable descending sort of the
counter items, it is sorted by descending count, and equal-count entries
appear exactly in counter/first-occurrence order); in particular for input
tokens "a a b c" with vocabulary_size 3 the returned FrequencyTable is
[(UNK,1), (a,2), (b,1)] and the EncodedStream is [1,1,2,0]. -/
theorem c1_ranking_stable_top :
    (∀ (v : Int) (ws : List String),
      (freqTable v ws).tail
          = (((counterItems ws).insertionSort countGe).take (v - 1).toNat).map
              (fun p => (p.1, (p.2 : Int)))
        ∧ (freqTable v ws).tail.Pairwise (fun a b => b.2 ≤ a.2)
        ∧ ∀ c : Nat, ((counterItems ws).insertionSort countGe).filter
              (fun p => p.2 = c)
            = (counterItems ws).filter (fun p => p.2 = c))
    ∧ W2VBuildDatasetTransform.transform 3 (.ofStr "a a b c") () =
        .ok (([1, 1, 2, 0], [("UNK", 1), ("a", 2), ("b", 1)],
              [("UNK", 0), ("a", 1), ("b", 2)], [(0, "UNK"), (1, "a"), (2, "b")]), ()) :=
  ⟨fun v ws => ⟨freqTable_tail_eq v ws, freqTable_tail_sorted v ws,
    fun c => insertionSort_countGe_filter ws c⟩, by rfl⟩

/-- C2: for every input (list, or string split on whitespace) and every
vocabulary size, the EncodedStream returned by the tokenizer transform is
the pointwise image of the input under the vocabulary lookup (0 when the
token is absent), hence has the same length as the input. -/
theorem c2_encoded_stream (κ : Type) (kw : κ) (v : Int) (input : W2VInput) :
    W2VBuildDatasetTransform.transform v input kw =
      .ok (((normalizeInput input).map (fun w =>
              (dictLookup (buildDict v (normalizeInput input)) w).getD 0),
            freqTable v (normalizeInput input),
            buildDict v (normalizeInput input),
            revDict v (normalizeInput input)), kw)
    ∧ ((normalizeInput input).map (fun w =>
          (dictLookup (buildDict v (normalizeInput input)) w).getD 0)).length
        = (normalizeInput input).length := by
  have hdata : (encodePair v (normalizeInput input)).1
      = (normalizeInput input).map (fun w =>
          (dictLookup (buildDict v (normalizeInput input)) w).getD 0) := by
    rw [encodePair, encodeLoop_eq]
  constructor
  · simp only [W2VBuildDatasetTransform.transform, w2vResult, hdata]
  · exact List.length_map _ _

/-- C3 counterexample: for the input ["UNK", "a", "a"] with vocabulary_size
2 (an input containing the literal OOV marker string), the counts in the
returned FrequencyTable sum to 2, not the input length 3: the occurrence of
the literal token "UNK" encodes to index 0 without incrementing the OOV
count and its own count is not retained. -/
theorem c3_counterexample :
    freqTable 2 ["UNK", "a", "a"] = [("UNK", 0), ("a", 2)] ∧
    ¬ ((freqTable 2 ["UNK", "a", "a"]).map (fun p => p.2)).sum
        = ((["UNK", "a", "a"] : List String).length : Int) := by
  constructor
  · rfl
  · decide

/-- C3 amended: provided no input token equals the literal OOV marker
string "UNK", the counts in the FrequencyTable returned by the tokenizer
sum to the input length, and the OOV marker's placeholder count has been
overwritten with the number of out-of-vocabulary emissions made while
encoding. -/
theorem c3_amended (v : Int) (ws : List String) (h : ¬ "UNK" ∈ ws) :
    ((freqTable v ws).map (fun p => p.2)).sum = (ws.length : Int) ∧
    (freqTable v ws).head? = some ("UNK", ((encodePair v ws).2 : Int)) :=
  ⟨freqTable_sum v ws h, by rw [freqTable, countInit]; rfl⟩

/-- C3 witness: the amended statement holds at the concrete input
["a", "a", "b", "c"] with vocabulary_size 3. -/
theorem c3_amended_witness :
    ¬ "UNK" ∈ ["a", "a", "b", "c"] ∧
    ((freqTable 3 ["a", "a", "b", "c"]).map (fun p => p.2)).sum
        = ((["a", "a", "b", "c"] : List String).length : Int) ∧
    (freqTable 3 ["a", "a", "b", "c"]).head?
        = some ("UNK", ((encodePair 3 ["a", "a", "b", "c"]).2 : Int)) :=
  ⟨by decide, (c3_amended 3 ["a", "a", "b", "c"] (by decide)).1,
    (c3_amended 3 ["a", "a", "b", "c"] (by decide)).2⟩

/-- C4 counterexample: for the input ["a", "UNK", "b"] with vocabulary_size
4, the literal token "UNK" collides with the placeholder: the vocabulary
maps "UNK" to 2 (index 0 is mapped from nothing), and the inverse mapping
sends 2 to "b", so the inverse property fails for the retained token
"UNK". -/
theorem c4_counterexample :
    dictLookup (buildDict 4 ["a", "UNK", "b"]) "UNK" = some 2 ∧
    ¬ dictLookup (buildDict 4 ["a", "UNK", "b"]) "UNK" = some 0 ∧
    dictLookup (revDict 4 ["a", "UNK", "b"]) 2 = some "b" ∧
    ¬ dictLookup (revDict 4 ["a", "UNK", "b"]) 2 = some "UNK" :=
  ⟨by decide, by decide, by decide, by decide⟩

/-- C4 amended: provided `1 ≤ vocabulary_size` and no input token equals
the literal OOV marker "UNK", the VocabularyMapping has at most
`vocabulary_size` entries, maps "UNK" to index 0, and the
InverseVocabularyMapping is its exact inverse on every retained token. -/
theorem c4_amended (v : Int) (ws : List String) (hv : 1 ≤ v)
    (h : ¬ "UNK" ∈ ws) :
    ((buildDict v ws).length : Int) ≤ v ∧
    dictLookup (buildDict v ws) "UNK" = some 0 ∧
    ∀ p ∈ buildDict v ws, dictLookup (revDict v ws) p.2 = some p.1 := by
  refine ⟨?_, dictLookup_buildDict_unk v ws h, ?_⟩
  · rw [buildDict_eq v ws h, withIdx_length, tokensOf_eq]
    simp only [List.length_cons, List.length_map]
    have h1 : (mostCommon (v - 1) (counterItems ws)).length ≤ (v - 1).toNat := by
      rw [mostCommon]
      exact List.length_take_le _ _
    omega
  · intro p hp
    rw [revDict_eq v ws h]
    exact dictLookup_map_swap (buildDict v ws) (buildDict_snd_nodup v ws h) p hp

/-- C4 witness: the amended statement holds at the concrete input
["a", "a", "b", "c"] with vocabulary_size 3. -/
theorem c4_amended_witness :
    ((1 : Int) ≤ 3 ∧ ¬ "UNK" ∈ ["a", "a", "b", "c"]) ∧
    ((buildDict 3 ["a", "a", "b", "c"]).length : Int) ≤ 3 ∧
    dictLookup (buildDict 3 ["a", "a", "b", "c"]) "UNK" = some 0 ∧
    ∀ p ∈ buildDict 3 ["a", "a", "b", "c"],
      dictLookup (revDict 3 ["a", "a", "b", "c"]) p.2 = some p.1 :=
  ⟨⟨by decide, by decide⟩,
    (c4_amended 3 ["a", "a", "b", "c"] (by decide) (by decide)).1,
    (c4_amended 3 ["a", "a", "b", "c"] (by decide) (by decide)).2.1,
    (c4_amended 3 ["a", "a", "b", "c"] (by decide) (by decide)).2.2⟩

/-- C5 counterexample: with `n_shuffles = 0 < 1` on a well-formed two-row
table, the serializer transform does not fail at all — it returns the
canonical serialization, refuting the claim that `n_shuffles < 1` raises
`InvalidArgument` (no such validation exists in the code). -/
theorem c5_counterexample :
    W2VStringTransform.transform 0 idPerm dfA () =
      .ok ("x y", ⟨[.vStr "A", .vStr "A"], [.vStr "x", .vStr "y"]⟩, ()) ∧
    ∀ e : PyErr, ¬ W2VStringTransform.transform 0 idPerm dfA () = .error e := by
  refine ⟨by rfl, ?_⟩
  intro e h
  rw [show W2VStringTransform.transform 0 idPerm dfA ()
      = .ok ("x y", (⟨[.vStr "A", .vStr "A"], [.vStr "x", .vStr "y"]⟩ : IndexedFrame), ())
      from rfl] at h
  exact Except.noConfusion h

/-- C5 amended: the serializer performs no argument validation and the code
base defines no `InvalidArgument` error: `n_shuffles < 1` is accepted and
behaves exactly like `n_shuffles = 1` (one canonical copy per group, no
error); a missing `link_id` column raises the underlying library's
`KeyError` at `set_index`; a missing `item_id` column raises
`AttributeError` as soon as one group is processed. -/
theorem c5_amended :
    (∀ (κ : Type) (n : Int) (perm : Nat → List PyVal → List PyVal)
        (df : DataFrame) (kw : κ), n ≤ 0 →
        W2VStringTransform.transform n perm df kw
          = W2VStringTransform.transform 1 perm df kw)
    ∧ (∀ (κ : Type) (n : Int) (perm : Nat → List PyVal → List PyVal)
        (hItem : Bool) (rows : List (PyVal × PyVal)) (kw : κ),
        W2VStringTransform.transform n perm ⟨false, hItem, rows⟩ kw
          = .error .keyError)
    ∧ (∀ (κ : Type) (n : Int) (perm : Nat → List PyVal → List PyVal)
        (r : PyVal × PyVal) (rows : List (PyVal × PyVal)) (kw : κ),
        W2VStringTransform.transform n perm ⟨true, false, r :: rows⟩ kw
          = .error .attributeError) := by
  refine ⟨?_, ?_, ?_⟩
  · intro κ n perm df kw hn
    have h0 : (n - 1).toNat = ((1 : Int) - 1).toNat := by omega
    simp only [W2VStringTransform.transform, h0]
  · intro κ n perm hItem rows kw
    rfl
  · intro κ n perm r rows kw
    rfl

/-- C5 witness: the amended statement at concrete inputs: `n_shuffles = 0`
on the two-row table behaves like `n_shuffles = 1`; a frame without
`link_id` gives `KeyError`; a frame without `item_id` but with a row gives
`AttributeError`. -/
theorem c5_amended_witness :
    ((0 : Int) ≤ 0 ∧ W2VStringTransform.transform 0 idPerm dfA ()
        = W2VStringTransform.transform 1 idPerm dfA ())
    ∧ W2VStringTransform.transform 2 idPerm ⟨false, true, []⟩ ()
        = .error .keyError
    ∧ W2VStringTransform.transform 2 idPerm ⟨true, false, [(.vStr "A", .vInt 5)]⟩ ()
        = .error .attributeError :=
  ⟨⟨le_refl 0, c5_amended.1 Unit 0 idPerm dfA () (le_refl 0)⟩,
   c5_amended.2.1 Unit 2 idPerm true [] (),
   c5_amended.2.2 Unit 2 idPerm (.vStr "A", .vInt 5) [] ()⟩

/-- C6 counterexample: with `vocabulary_size = 0 < 1` the tokenizer
transform does not fail — it returns normally (every token becomes
out-of-vocabulary), refuting the claim that `vocabulary_size < 1` raises
`InvalidArgument` (no such validation exists in the code). -/
theorem c6_counterexample :
    W2VBuildDatasetTransform.transform 0 (.ofList ["a"]) () =
      .ok (([0], [("UNK", 1)], [("UNK", 0)], [(0, "UNK")]), ()) ∧
    ∀ e : PyErr,
      ¬ W2VBuildDatasetTransform.transform 0 (.ofList ["a"]) () = .error e := by
  refine ⟨by rfl, ?_⟩
  intro e h
  rw [show W2VBuildDatasetTransform.transform 0 (.ofList ["a"]) ()
      = .ok (([0], [("UNK", 1)], [("UNK", 0)], [(0, "UNK")]), ()) from rfl] at h
  exact Except.noConfusion h

/-- C6 amended: the tokenizer performs no `vocabulary_size` validation: for
`vocabulary_size ≤ 0` it returns normally with the empty retained
vocabulary — `most_common` of a non-positive argument is empty, every token
encodes to 0, and the FrequencyTable holds only the OOV marker, counting
the tokens different from the literal "UNK". -/
theorem c6_amended (κ : Type) (v : Int) (input : W2VInput) (kw : κ)
    (hv : v ≤ 0) :
    W2VBuildDatasetTransform.transform v input kw =
      .ok ((List.replicate (normalizeInput input).length 0,
            [("UNK", (((normalizeInput input).filter
                (fun w => ¬ w = "UNK")).length : Int))],
            [("UNK", 0)], [(0, "UNK")]), kw) := by
  rw [W2VBuildDatasetTransform.transform, w2vResult_nonpos v _ hv]

/-- C6 witness: the amended statement holds at `vocabulary_size = 0` on the
concrete input ["a", "b"]. -/
theorem c6_amended_witness :
    (0 : Int) ≤ 0 ∧
    W2VBuildDatasetTransform.transform 0 (.ofList ["a", "b"]) () =
      .ok (([0, 0], [("UNK", 2)], [("UNK", 0)], [(0, "UNK")]), ()) := by
  refine ⟨le_refl 0, ?_⟩
  rw [c6_amended Unit 0 (.ofList ["a", "b"]) () (le_refl 0)]
  rfl

/-- C7 counterexample: for the table with the single group "A" holding the
one integer member 5 and `n_shuffles = 2`, under a legitimate outcome of
the random source the output is "5 0 1 2 3 4" — `df.loc` collapses the
single row to the scalar 5 and `np.random.permutation(5)` permutes
`range(5)` — not two space-separated copies "5 5" of the group's member
list as the claim requires. -/
theorem c7_counterexample :
    W2VStringTransform.transform 2 idPerm df1 () =
      .ok ("5 0 1 2 3 4", ⟨[.vStr "A"], [.vInt 5]⟩, ()) ∧
    ¬ ("5 0 1 2 3 4" = "5 5") :=
  ⟨by rfl, by decide⟩

/-- C7 amended: for every table in which every group has at least two
members, every `n_shuffles = k ≥ 2` and every outcome of the random source,
the serializer returns the strip-fold of per-group block strings, and each
group's block is exactly `k` space-separated copies of the group's member
list — the first the canonical copy, each a permutation (multiset-equal) of
the canonical member list. -/
theorem c7_amended (κ : Type) (n : Int) (perm : Nat → List PyVal → List PyVal)
    (df : DataFrame) (kw : κ) (hn : 2 ≤ n)
    (hperm : ∀ c l, (perm c l).Perm l)
    (hlink : df.hasLink = true) (hitem : df.hasItem = true)
    (hgrp : ∀ v ∈ firstOccs (df.rows.map (fun r => r.1)),
      2 ≤ (locItems df.rows v).length) :
    ∃ blocks : List String,
      W2VStringTransform.transform n perm df kw =
        .ok (stripFoldl "" blocks,
          ⟨df.rows.map (fun r => r.1), df.rows.map (fun r => r.2)⟩, kw) ∧
      List.Forall₂ (blockSpec df.rows n.toNat)
        (firstOccs (df.rows.map (fun r => r.1))) blocks := by
  obtain ⟨blocks, hgo, hf⟩ := w2vGo_blocks perm hperm (n - 1).toNat df hitem
    (firstOccs (df.rows.map (fun r => r.1))) hgrp "" 0
  refine ⟨blocks, ?_, ?_⟩
  · rw [W2VStringTransform.transform, hlink, if_pos rfl, hgo]
  · have hkn : (n - 1).toNat + 1 = n.toNat := by omega
    rw [← hkn]
    exact hf

/-- C7 witness: the amended statement holds at the concrete two-member
table `dfA` with `n_shuffles = 2` under the identity permutation outcome. -/
theorem c7_amended_witness :
    ((2 : Int) ≤ 2 ∧ dfA.hasLink = true ∧ dfA.hasItem = true ∧
      (∀ v ∈ firstOccs (dfA.rows.map (fun r => r.1)),
        2 ≤ (locItems dfA.rows v).length)) ∧
    ∃ blocks : List String,
      W2VStringTransform.transform 2 idPerm dfA () =
        .ok (stripFoldl "" blocks,
          ⟨dfA.rows.map (fun r => r.1), dfA.rows.map (fun r => r.2)⟩, ()) ∧
      List.Forall₂ (blockSpec dfA.rows (2 : Int).toNat)
        (firstOccs (dfA.rows.map (fun r => r.1))) blocks :=
  ⟨⟨by decide, rfl, rfl, by decide⟩,
    c7_amended Unit 2 idPerm dfA () (by decide) (fun _ l => List.Perm.refl l)
      rfl rfl (by decide)⟩

/-- C8: evaluation at the failing input — a table whose group "A" has
exactly one member, the integer 5, with `n_shuffles = 1`: the code raises
`TypeError` (the single row collapses to a scalar and `' '.join` iterates a
bare int) instead of emitting the member's stringification "5" as the claim
(and the spec's stated intent) requires. -/
theorem c8_single_member_crash :
    W2VStringTransform.transform 1 idPerm df1 () = .error .typeError := by rfl

/-- C9: whenever the serializer transform returns successfully, the
returned (re-indexed, in-place mutated) frame carries exactly the input
rows' data: its index is the input's `link_id` column and its single
column is the input's `item_id` column — the re-indexing is the only
change. -/
theorem c9_frame_preserved (κ : Type) (n : Int)
    (perm : Nat → List PyVal → List PyVal) (df : DataFrame) (kw : κ)
    (w : String) (post : IndexedFrame) (kw2 : κ)
    (h : W2VStringTransform.transform n perm df kw = .ok (w, post, kw2)) :
    post.index = df.rows.map (fun r => r.1)
      ∧ post.items = df.rows.map (fun r => r.2) := by
  rw [W2VStringTransform.transform] at h
  split at h
  · split at h
    · simp at h
    · simp only [Except.ok.injEq, Prod.mk.injEq] at h
      obtain ⟨-, h2, -⟩ := h
      rw [← h2]
      exact ⟨rfl, rfl⟩
  · simp at h

/-- C9 witness: a successful concrete run on `dfA` with its post-state. -/
theorem c9_frame_witness :
    W2VStringTransform.transform 1 idPerm dfA () =
      .ok ("x y", ⟨[.vStr "A", .vStr "A"], [.vStr "x", .vStr "y"]⟩, ()) ∧
    (⟨[.vStr "A", .vStr "A"], [.vStr "x", .vStr "y"]⟩ : IndexedFrame).index
        = dfA.rows.map (fun r => r.1) ∧
    (⟨[.vStr "A", .vStr "A"], [.vStr "x", .vStr "y"]⟩ : IndexedFrame).items
        = dfA.rows.map (fun r => r.2) :=
  ⟨by rfl,
    (c9_frame_preserved Unit 1 idPerm dfA () "x y"
      ⟨[.vStr "A", .vStr "A"], [.vStr "x", .vStr "y"]⟩ () (by rfl)).1,
    (c9_frame_preserved Unit 1 idPerm dfA () "x y"
      ⟨[.vStr "A", .vStr "A"], [.vStr "x", .vStr "y"]⟩ () (by rfl)).2⟩

/-- C10: for every input and every side-channel value, the tokenizer
transform returns the `kwargs` value untouched as the second component of
its result (the abstract type rules out any addition or removal). -/
theorem c10_kwargs_unchanged (κ : Type) (kw : κ) (v : Int) (input : W2VInput) :
    W2VBuildDatasetTransform.transform v input kw
      = .ok (w2vResult v (normalizeInput input), kw) := rfl
